import Mathlib

/-!
Shallow embedding of the TL2-style software transactional memory from
`src/394984` (`tm.cpp`, `data-structures.cpp`, `data-structures.hpp`).

Machine words (`word = uintptr_t`, `version = uint64_t`) are modelled as
`Nat` with explicit reduction modulo `2^64` where C++ arithmetic wraps.
Addresses are byte addresses (`word*` pointers cast to integers); pointer
arithmetic `p + i` on a `word*` advances by 8 bytes.  Shared memory is a
function from addresses to word values.  The global version clock `gvc`
(a global `atomic<version>` in the source) is folded into the shared
state so that it can be threaded through `tm_end`.

`NUM_LOCKS` comes from `macros.hpp`, which is not part of the sources;
every definition takes it as an explicit parameter `numLocks`.
-/

namespace TM

/-- Pointwise update of a function modelling an array or memory. -/
def upd (f : Nat → Nat) (i v : Nat) : Nat → Nat :=
  fun j => if j = i then v else f j

namespace VersionedWriteLock

/-- `VersionedWriteLock::lock` (data-structures.cpp:22-36): CAS from the
word with the lock bit cleared to the same word with the lock bit set.
The CAS succeeds exactly when the current word equals `load() & ~1`,
i.e. when the lock bit is clear; the stored word becomes `expected | 1`.
Returns `some` of the new word on success, `none` on failure. -/
def lock (w : Nat) : Option Nat :=
  if w % 2 = 0 then some (w + 1) else none

/-- `VersionedWriteLock::unlock` (data-structures.cpp:39-44):
`new_value = (current & ~1u) + 2`.  `~1u` is a 32-bit `unsigned int`
mask `0xFFFFFFFE`, zero-extended to 64 bits, so the conjunction keeps
only bits 1..31 of the current word before adding 2. -/
def unlock (w : Nat) : Nat :=
  2 * (w % 2 ^ 32 / 2) + 2

/-- `VersionedWriteLock::getVersion` (data-structures.cpp:46-48):
shift the word right by one. -/
def getVersion (w : Nat) : Nat := w / 2

/-- `VersionedWriteLock::isLocked` (data-structures.cpp:50-52):
test the low bit. -/
def isLocked (w : Nat) : Bool := w % 2 = 1

/-- `VersionedWriteLock::setVersion` (data-structures.cpp:54-57):
`new_val = v << 1 | 1` on `uint64_t`, i.e. `2*v` reduced modulo `2^64`
with the lock bit set. -/
def setVersion (v : Nat) : Nat :=
  2 * v % 2 ^ 64 + 1

end VersionedWriteLock

/-- The `Alloc` result enumeration from `tm.hpp`. -/
inductive Alloc where
  | success : Alloc
  | nomem : Alloc
  | abort : Alloc
deriving Repr, DecidableEq

/-- The shared memory region (`MemoryRegion`, data-structures.hpp:25-31)
together with the global version clock `gvc` (tm.cpp:37).  `mem` models
the contents of every shared word (the `start` buffer and all allocated
segments); `locks` is the stripe table `region->locks`; `list_lock` and
`seg_list` guard and hold the dynamically allocated segments; `align`
is the region alignment returned by `tm_align`. -/
structure MemoryRegion where
  mem : Nat → Nat
  locks : Nat → Nat
  gvc : Nat
  list_lock : Nat
  seg_list : List Nat
  align : Nat

/-- The per-transaction context (`Transaction`, data-structures.hpp:49-56).
The source's read set is an `unordered_map<word*, list<ReadOperation>>`
used only through key insertion and key iteration; following the spec
(§9, "the spec above treats it as a set of addresses") it is embedded as
a list of addresses.  The write set `unordered_map<word*, WriteOperation>`
is embedded as an association list from address to pending value. -/
structure Transaction where
  rv : Nat
  read_set : List Nat
  write_set : List (Nat × Nat)
  is_ro : Bool
deriving Repr, DecidableEq

/-- `unordered_map::insert_or_assign`: replace the binding if the key is
present, otherwise append it. -/
def insertOrAssign (ws : List (Nat × Nat)) (a v : Nat) : List (Nat × Nat) :=
  match ws with
  | [] => [(a, v)]
  | (b, w) :: rest =>
      if b = a then (a, v) :: rest else (b, w) :: insertOrAssign rest a v

/-- `unordered_map::insert` with only a key (read-set insertion,
tm.cpp:256): a no-op when the key is already present. -/
def insertRS (rs : List Nat) (a : Nat) : List Nat :=
  if a ∈ rs then rs else rs ++ [a]

/-- `unordered_map::find` on the write set: the buffered pending value
for an address, if any. -/
def wsFind (ws : List (Nat × Nat)) (a : Nat) : Option Nat :=
  match ws with
  | [] => none
  | (b, w) :: rest => if b = a then some w else wsFind rest a

/-- Modelled from the spec: `validateRead` lives in `helpers.hpp`, which
is absent from the sources.  Per spec §4.E a read validation snapshots
the versioned write lock of the stripe guarding `addr` and succeeds iff
the stripe is unlocked and its version is at most the given bound.  The
helper receives only the region and the address, so it cannot consult
the transaction; the stripe is selected by the same raw-address mapping
`addr % NUM_LOCKS` used everywhere in `tm.cpp`. -/
def validateRead (locks : Nat → Nat) (numLocks addr bound : Nat) : Bool :=
  let w := locks (addr % numLocks)
  !(VersionedWriteLock.isLocked w) && decide (VersionedWriteLock.getVersion w ≤ bound)

/-- Modelled from the spec: `freeHeldLocks` lives in `helpers.hpp`,
which is absent from the sources.  It receives the list of locks
acquired so far (tm.cpp:145,157,170,187) and releases each one; the
only release operation `VersionedWriteLock` offers is `unlock`, so it
calls `unlock` on every held lock in list order.  Locks are identified
here by their stripe index. -/
def freeHeldLocks (held : List Nat) (locks : Nat → Nat) : Nat → Nat :=
  held.foldl (fun f stripe => upd f stripe (VersionedWriteLock.unlock (f stripe))) locks

/-- Phase 3 of `tm_end` (tm.cpp:151-161): iterate the write set, `lock`
each entry's stripe `(word)target_addr % NUM_LOCKS`, recording acquired
stripes in `locks_held`; on the first failure release all previously
held locks with `freeHeldLocks` and abort (`.inr` carries the resulting
stripe table).  `.inl` carries the stripe table and held list on
success. -/
def phase3 (numLocks : Nat) :
    List (Nat × Nat) → (Nat → Nat) → List Nat → ((Nat → Nat) × List Nat) ⊕ (Nat → Nat)
  | [], locks, held => .inl (locks, held)
  | (addr, _) :: rest, locks, held =>
      let stripe := addr % numLocks
      match VersionedWriteLock.lock (locks stripe) with
      | some w => phase3 numLocks rest (upd locks stripe w) (held ++ [stripe])
      | none => .inr (freeHeldLocks held locks)

/-- Phase 5 of `tm_end` (tm.cpp:166-173): validate every read-set
address with `validateRead`, bound `wv + 1`. -/
def phase5 (numLocks : Nat) (locks : Nat → Nat) (bound : Nat) : List Nat → Bool
  | [] => true
  | a :: rest => validateRead locks numLocks a bound && phase5 numLocks locks bound rest

/-- Phase 6 of `tm_end` (tm.cpp:178-185): for each write-set entry store
the pending value into shared memory and `setVersion wv` on its stripe. -/
def phase6 (numLocks wv : Nat) :
    List (Nat × Nat) → (Nat → Nat) → (Nat → Nat) → (Nat → Nat) × (Nat → Nat)
  | [], mem, locks => (mem, locks)
  | (addr, val) :: rest, mem, locks =>
      phase6 numLocks wv rest (upd mem addr val)
        (upd locks (addr % numLocks) (VersionedWriteLock.setVersion wv))

/-- `tm_end` (tm.cpp:142-192).  Phase 3 locks the write set; phase 4
reads `wv = gvc.fetch_add(1)` (the value BEFORE the increment); phase 5
validates the read set against bound `wv + 1`; phase 6 stores the write
set and stamps each written stripe with `setVersion wv`, after which
`freeHeldLocks` releases every held lock.  Both the abort paths and the
commit path return `false` (tm.cpp:158,171,191). -/
def tm_end (numLocks : Nat) (s : MemoryRegion) (txn : Transaction) :
    Bool × MemoryRegion :=
  match phase3 numLocks txn.write_set s.locks [] with
  | .inr locks1 => (false, { s with locks := locks1 })
  | .inl (locks1, held) =>
      let wv := s.gvc
      let gvc1 := (s.gvc + 1) % 2 ^ 64
      if phase5 numLocks locks1 ((wv + 1) % 2 ^ 64) txn.read_set then
        let ml := phase6 numLocks wv txn.write_set s.mem locks1
        (false, { s with mem := ml.1, locks := freeHeldLocks held ml.2, gvc := gvc1 })
      else
        (false, { s with locks := freeHeldLocks held locks1, gvc := gvc1 })

/-- The read-only loop of `tm_read` (tm.cpp:215-226): for each word,
copy the shared value into the private target buffer (modelled as the
accumulated list of values in loop order), then post-validate the read
against `rv`; on failure return `false` with the values written so far.
`i` is the loop index, the second argument the remaining word count. -/
def readLoopRO (numLocks : Nat) (s : MemoryRegion) (rv src : Nat) :
    Nat → Nat → List Nat → Bool × List Nat
  | _, 0, acc => (true, acc)
  | i, n + 1, acc =>
      let addr := src + 8 * i
      let acc1 := acc ++ [s.mem addr]
      if validateRead s.locks numLocks addr rv then
        readLoopRO numLocks s rv src (i + 1) n acc1
      else (false, acc1)

/-- The read-write loop of `tm_read` (tm.cpp:231-257): for each word,
pre-validate against `rv`; look the address up in the write set and copy
either the buffered pending value or the shared value into the target;
post-validate; insert the address into the read set, and continue.  On
a failed validation the transaction context is destroyed (`delete txn`)
and the loop returns `false`; the destroyed context is modelled by a
`none` in the result. -/
def readLoopRW (numLocks : Nat) (s : MemoryRegion) (src : Nat) :
    Nat → Nat → Transaction → List Nat → Bool × Option Transaction × List Nat
  | _, 0, txn, acc => (true, some txn, acc)
  | i, n + 1, txn, acc =>
      let addr := src + 8 * i
      if validateRead s.locks numLocks addr txn.rv then
        let v :=
          match wsFind txn.write_set addr with
          | some w => w
          | none => s.mem addr
        if validateRead s.locks numLocks addr txn.rv then
          readLoopRW numLocks s src (i + 1) n
            { txn with read_set := insertRS txn.read_set addr } (acc ++ [v])
        else (false, none, acc ++ [v])
      else (false, none, acc)

/-- `tm_read` (tm.cpp:202-260).  `num_words = size / tm_align(shared)`;
the word at loop index `i` is at byte address `src + 8*i` (pointer
arithmetic on `word*`).  The result is the continue flag, the surviving
transaction context (`none` exactly where the source runs `delete txn`)
and the list of words written to the private target buffer. -/
def tm_read (numLocks : Nat) (s : MemoryRegion) (txn : Transaction)
    (src size : Nat) : Bool × Option Transaction × List Nat :=
  let numWords := size / s.align
  if txn.is_ro then
    match readLoopRO numLocks s txn.rv src 0 numWords [] with
    | (true, acc) => (true, some txn, acc)
    | (false, acc) => (false, none, acc)
  else
    readLoopRW numLocks s src 0 numWords txn []

/-- The loop of `tm_write` (tm.cpp:281-288): for each word, read the
value at `source + 8*i` from the private source buffer `srcMem` and
`insert_or_assign` it into the write set under key `target + 8*i`. -/
def writeLoop (srcMem : Nat → Nat) (src dst : Nat) :
    Nat → Nat → List (Nat × Nat) → List (Nat × Nat)
  | _, 0, ws => ws
  | i, n + 1, ws =>
      writeLoop srcMem src dst (i + 1) n
        (insertOrAssign ws (dst + 8 * i) (srcMem (src + 8 * i)))

/-- `tm_write` (tm.cpp:270-290): buffer every affected word into the
write set and return `true`.  The source never stores to the shared
region here, so the embedding returns only the flag and the updated
transaction; `s` is consulted only for `tm_align`. -/
def tm_write (srcMem : Nat → Nat) (s : MemoryRegion) (txn : Transaction)
    (src size dst : Nat) : Bool × Transaction :=
  let numWords := size / s.align
  (true, { txn with write_set := writeLoop srcMem src dst 0 numWords txn.write_set })

/-- `tm_alloc` (tm.cpp:299-319).  `allocOk` models whether the external
`aligned_alloc` succeeds and `newSeg` the address it returns.  On
allocator failure the result is `nomem`; if the single attempt on the
region's `list_lock` fails the result is `abort`; otherwise the segment
is appended to `seg_list`, the list lock is released with `unlock`, and
the result is `success`.  No path deletes the transaction context, so
the context is returned alive (`some txn`) in every case. -/
def tm_alloc (s : MemoryRegion) (txn : Transaction) (allocOk : Bool)
    (newSeg : Nat) : Alloc × Option Transaction × MemoryRegion :=
  if allocOk = false then (.nomem, some txn, s)
  else
    match VersionedWriteLock.lock s.list_lock with
    | none => (.abort, some txn, s)
    | some w =>
        (.success, some txn,
          { s with
            list_lock := VersionedWriteLock.unlock w,
            seg_list := s.seg_list ++ [newSeg] })

/-- `tm_free` (tm.cpp:327-331): unimplemented in the source; ignores
every argument and returns `false`. -/
def tm_free (_s : MemoryRegion) (_txn : Transaction) (_target : Nat) : Bool :=
  false

/-- The path condition under which `tm_end` reaches its commit stores
(phase 6): every phase-3 lock acquisition succeeds and every phase-5
validation passes.  This mirrors the control flow of `tm_end` exactly;
it is the spec's notion of "the transaction commits". -/
def tm_end_commits (numLocks : Nat) (s : MemoryRegion) (txn : Transaction) : Bool :=
  match phase3 numLocks txn.write_set s.locks [] with
  | .inr _ => false
  | .inl (locks1, _) => phase5 numLocks locks1 ((s.gvc + 1) % 2 ^ 64) txn.read_set

end TM

namespace TM

/-! Concrete fixtures used by the theorems below.  `zeroRegion` is a
freshly created region: zeroed shared memory, all stripe locks at word
0 (version 0, unlocked), clock 0, free list lock, alignment 8. -/

/-- A freshly created region with alignment 8 and `NUM_LOCKS` stripes
all at word 0. -/
def zeroRegion : MemoryRegion :=
  { mem := fun _ => 0, locks := fun _ => 0, gvc := 0,
    list_lock := 0, seg_list := [], align := 8 }

/-- A freshly begun read-write transaction with empty read and write
sets and read version 0. -/
def txnEmpty : Transaction :=
  { rv := 0, read_set := [], write_set := [], is_ro := false }

end TM

namespace TM

/-- A region whose stripe 0 holds word 2 (version 1, unlocked) and whose
clock reads 5; used to exhibit a stale read that phase 5 accepts. -/
def staleRegion : MemoryRegion :=
  { zeroRegion with gvc := 5, locks := upd (fun _ => 0) 0 2 }

/-- A transaction with read version 0 that has read address 0 and
buffered a write of 42 to address 1. -/
def staleReadTxn : Transaction :=
  { rv := 0, read_set := [0], write_set := [(1, 42)], is_ro := false }

/-- A region whose stripe 2 is pre-locked by another transaction
(word 1: version 0, locked). -/
def stripe2LockedRegion : MemoryRegion :=
  { zeroRegion with locks := upd (fun _ => 0) 2 1 }

/-- A transaction that buffered writes to addresses 1 and 2 (stripes 1
and 2 with 8 stripes). -/
def twoStripeTxn : Transaction :=
  { rv := 0, read_set := [], write_set := [(1, 5), (2, 7)], is_ro := false }

/-- A transaction that buffered writes to addresses 1 and 9, which both
map to stripe 1 when `NUM_LOCKS = 8`. -/
def sameStripeTxn : Transaction :=
  { rv := 0, read_set := [], write_set := [(1, 5), (9, 7)], is_ro := false }

/-- A region whose clock reads `2^31`, the smallest write version whose
stripe stamp is truncated by `unlock`'s 32-bit mask. -/
def bigClockRegion : MemoryRegion :=
  { zeroRegion with gvc := 2 ^ 31 }

/-- A transaction that buffered a write of 5 to address 3. -/
def writeOneTxn : Transaction :=
  { rv := 2 ^ 31, read_set := [], write_set := [(3, 5)], is_ro := false }

/-- A region whose `list_lock` is held (word 1), so `tm_alloc`'s single
lock attempt fails and it returns `abort`. -/
def listLockedRegion : MemoryRegion :=
  { zeroRegion with list_lock := 1 }

/-- A read-write transaction with read version 0 that buffered a write
of 17 to address 8, in a region whose stripe 0 (guarding address 8 with
8 stripes) holds version 1 — newer than `rv`. -/
def bufferedTxn : Transaction :=
  { rv := 0, read_set := [], write_set := [(8, 17)], is_ro := false }

/-- A region with shared value 99 everywhere and stripe 0 at version 1
(word 2, unlocked). -/
def version1Region : MemoryRegion :=
  { zeroRegion with mem := fun _ => 99, locks := upd (fun _ => 0) 0 2 }

/-- Claim C1: `end` is claimed to return `true` when the transaction
commits.  On a fresh region, a transaction with empty read and write
sets passes every phase of the commit protocol (`tm_end_commits` holds),
yet `tm_end` returns `false`: the source returns `false` on its commit
path (tm.cpp:191), contradicting its own `@return` documentation and the
spec's return contract. -/
theorem tm_end_returns_false_on_commit :
    tm_end_commits 8 zeroRegion txnEmpty = true ∧
    (tm_end 8 zeroRegion txnEmpty).1 = false := by
  exact ⟨rfl, rfl⟩

/-- Claim C2: after a commit, every written stripe is claimed to hold
version `wv = Clock.tick() + 1`.  With the clock at `2^31`, a committing
transaction that wrote address 3 should leave stripe 3 at version
`2^31 + 1`; instead `unlock`'s 32-bit mask (`~1u`, data-structures.cpp:41)
truncates the stamped word `setVersion(2^31) = 2^32 + 1` and the stripe
ends at version 1. -/
theorem commit_stripe_version_truncated :
    tm_end_commits 8 bigClockRegion writeOneTxn = true ∧
    VersionedWriteLock.getVersion ((tm_end 8 bigClockRegion writeOneTxn).2.locks 3) = 1 ∧
    (1 : Nat) ≠ 2 ^ 31 + 1 := by
  refine ⟨rfl, by decide, by decide⟩

/-- Claim C3: phase 5 is claimed to abort unless each read stripe's
version is at most `rv`.  Here the transaction has `rv = 0` and read
address 0, whose stripe holds version 1 — stale, so the claim mandates
an abort — yet the source validates against `wv + 1` (tm.cpp:168), the
post-increment clock, so the commit goes through and the buffered write
to address 1 lands in shared memory. -/
theorem phase5_validates_against_wv_not_rv :
    validateRead staleRegion.locks 8 0 staleReadTxn.rv = false ∧
    tm_end_commits 8 staleRegion staleReadTxn = true ∧
    (tm_end 8 staleRegion staleReadTxn).2.mem 1 = 42 := by
  refine ⟨by decide, rfl, by decide⟩

/-- Claim C6: a commit whose write set holds two addresses of the same
stripe is claimed not to spuriously fail.  Addresses 1 and 9 both map
to stripe 1 with 8 stripes; on a fresh region the second `lock` call
finds the stripe already held by this same transaction and `tm_end`
aborts without storing either value. -/
theorem same_stripe_commit_self_aborts :
    (1 : Nat) % 8 = 9 % 8 ∧
    tm_end_commits 8 zeroRegion sameStripeTxn = false ∧
    (tm_end 8 zeroRegion sameStripeTxn).1 = false ∧
    (tm_end 8 zeroRegion sameStripeTxn).2.mem 1 = 0 ∧
    (tm_end 8 zeroRegion sameStripeTxn).2.mem 9 = 0 := by
  refine ⟨by decide, rfl, rfl, by decide, by decide⟩

/-- Claim C7: the version of a versioned write lock is claimed to be
monotonically non-decreasing across successful unlocks.  The legal
sequence lock, `setVersion (2^31)` (while locked), unlock drops the
observed version from `2^31` to 1, because `unlock` masks the word with
the 32-bit `~1u` (data-structures.cpp:41) before clearing the lock bit. -/
theorem unlock_decreases_version :
    VersionedWriteLock.lock 0 = some 1 ∧
    VersionedWriteLock.setVersion (2 ^ 31) = 2 ^ 32 + 1 ∧
    VersionedWriteLock.getVersion (2 ^ 32 + 1) = 2 ^ 31 ∧
    VersionedWriteLock.unlock (2 ^ 32 + 1) = 2 ∧
    VersionedWriteLock.getVersion 2 = 1 ∧
    (1 : Nat) < 2 ^ 31 := by
  refine ⟨by decide, by decide, by decide, by decide, by decide, by decide⟩

/-- Claim C8: a failing `alloc` is claimed to destroy the transaction
context before returning.  With the region's `list_lock` held, the
single lock attempt fails and `tm_alloc` returns `abort`, but no path
of the source (tm.cpp:299-319) deletes the transaction: the context is
returned alive. -/
theorem alloc_abort_keeps_transaction :
    (tm_alloc listLockedRegion txnEmpty true 64).1 = Alloc.abort ∧
    (tm_alloc listLockedRegion txnEmpty true 64).2.1 = some txnEmpty := by
  exact ⟨rfl, rfl⟩

/-- Claim C10: `tm_free` returns `false` for every region, transaction
and address: the source is an unconditional `return false`. -/
theorem tm_free_always_false :
    ∀ (s : MemoryRegion) (txn : Transaction) (target : Nat),
      tm_free s txn target = false := by
  intro _ _ _
  rfl

/-- Counterexample to claim C4: when `tm_end` aborts after partially
acquiring locks, it is claimed to release them without changing their
version.  The transaction below locks stripe 1 (version 0), then fails
on the pre-locked stripe 2; the release bumps stripe 1 to version 1. -/
theorem abort_release_changes_version :
    tm_end_commits 8 stripe2LockedRegion twoStripeTxn = false ∧
    (tm_end 8 stripe2LockedRegion twoStripeTxn).1 = false ∧
    VersionedWriteLock.getVersion (stripe2LockedRegion.locks 1) = 0 ∧
    VersionedWriteLock.getVersion ((tm_end 8 stripe2LockedRegion twoStripeTxn).2.locks 1) = 1 := by
  refine ⟨rfl, rfl, by decide, by decide⟩

/-- Counterexample to claim C5: a read of an address in the transaction's
own write set is claimed to return the buffered value without any
validation and without adding the address to the read set.  First
conjunct: address 8 is in the write set with pending value 17, but its
stripe holds version 1 > `rv = 0`, so the pre-validation performed by
the source (tm.cpp:236) fails and the read aborts instead of returning
the buffered value.  Second conjunct: on a fresh region, where that
validation passes, the same read returns the buffered 17 but DOES
insert address 8 into the read set. -/
theorem write_set_read_still_validates :
    tm_read 8 version1Region bufferedTxn 8 8 = (false, none, []) ∧
    tm_read 8 zeroRegion bufferedTxn 8 8 =
      (true, some { rv := 0, read_set := [8], write_set := [(8, 17)], is_ro := false }, [17]) := by
  exact ⟨by decide, by decide⟩

end TM

namespace TM

theorem upd_same (f : Nat → Nat) (i v : Nat) : upd f i v i = v := by
  simp [upd]

theorem upd_ne (f : Nat → Nat) (i v j : Nat) (h : j ≠ i) : upd f i v j = f j := by
  simp [upd, h]

theorem lock_eq_some (x w : Nat) :
    VersionedWriteLock.lock x = some w ↔ x % 2 = 0 ∧ w = x + 1 := by
  unfold VersionedWriteLock.lock
  split <;> simp_all [eq_comm]

theorem lock_eq_none (x : Nat) :
    VersionedWriteLock.lock x = none ↔ x % 2 = 1 := by
  unfold VersionedWriteLock.lock
  split <;> simp_all

theorem unlock_even (w : Nat) : VersionedWriteLock.unlock w % 2 = 0 := by
  unfold VersionedWriteLock.unlock
  omega

theorem unlock_odd_lt (w : Nat) (h1 : w % 2 = 1) (h2 : w < 2 ^ 32) :
    VersionedWriteLock.unlock w = w + 1 := by
  unfold VersionedWriteLock.unlock
  rw [Nat.mod_eq_of_lt h2]
  omega

theorem freeHeldLocks_nil (lk : Nat → Nat) : freeHeldLocks [] lk = lk := rfl

theorem freeHeldLocks_cons (h : Nat) (t : List Nat) (lk : Nat → Nat) :
    freeHeldLocks (h :: t) lk =
      freeHeldLocks t (upd lk h (VersionedWriteLock.unlock (lk h))) := rfl

theorem freeHeldLocks_not_mem :
    ∀ (held : List Nat) (lk : Nat → Nat) (j : Nat), j ∉ held →
      freeHeldLocks held lk j = lk j := by
  intro held
  induction held with
  | nil => intro lk j _; rfl
  | cons h t ih =>
      intro lk j hj
      rw [freeHeldLocks_cons]
      have hjh : j ≠ h := fun e => hj (e ▸ List.mem_cons_self h t)
      have hjt : j ∉ t := fun e => hj (List.mem_cons_of_mem h e)
      rw [ih _ j hjt, upd_ne _ _ _ _ hjh]

theorem freeHeldLocks_mem :
    ∀ (held : List Nat) (lk : Nat → Nat) (j : Nat), held.Nodup → j ∈ held →
      freeHeldLocks held lk j = VersionedWriteLock.unlock (lk j) := by
  intro held
  induction held with
  | nil => intro lk j _ hj; exact absurd hj (List.not_mem_nil j)
  | cons h t ih =>
      intro lk j hnd hj
      rw [freeHeldLocks_cons]
      rcases List.mem_cons.mp hj with rfl | hjt
      · have hht : j ∉ t := (List.nodup_cons.mp hnd).1
        rw [freeHeldLocks_not_mem t _ j hht, upd_same]
      · have hne : j ≠ h := by
          intro e
          exact (List.nodup_cons.mp hnd).1 (e ▸ hjt)
        rw [ih _ j (List.nodup_cons.mp hnd).2 hjt, upd_ne _ _ _ _ hne]

/-- Invariant of phase 3 relating the current stripe table `lk` and the
held-lock list to the stripe table `orig` at entry to `tm_end`: held
stripes are distinct, every unheld stripe is untouched, and every held
stripe was unlocked at entry and now carries its original word with the
lock bit set. -/
def lockInv (orig lk : Nat → Nat) (held : List Nat) : Prop :=
  held.Nodup ∧ (∀ j, j ∉ held → lk j = orig j) ∧
    (∀ j, j ∈ held → orig j % 2 = 0 ∧ lk j = orig j + 1)

theorem lockInv_nil (orig : Nat → Nat) : lockInv orig orig [] :=
  ⟨List.nodup_nil, fun _ _ => rfl, fun j hj => absurd hj (List.not_mem_nil j)⟩

theorem lockInv_step (orig lk : Nat → Nat) (held : List Nat) (stripe : Nat)
    (hinv : lockInv orig lk held) (heven : lk stripe % 2 = 0) :
    lockInv orig (upd lk stripe (lk stripe + 1)) (held ++ [stripe]) := by
  obtain ⟨hnd, hout, hin⟩ := hinv
  have hsm : stripe ∉ held := by
    intro hm
    have h1 := (hin stripe hm).1
    have h2 := (hin stripe hm).2
    omega
  refine ⟨?_, ?_, ?_⟩
  · simp [List.nodup_append, hnd, hsm]
  · intro j hj
    have hjs : j ≠ stripe := by
      intro e; exact hj (by simp [e])
    have hjh : j ∉ held := by
      intro e; exact hj (by simp [e])
    rw [upd_ne _ _ _ _ hjs, hout j hjh]
  · intro j hj
    rcases List.mem_append.mp hj with hjh | hjs
    · have hjs : j ≠ stripe := by
        intro e; exact hsm (e ▸ hjh)
      rw [upd_ne _ _ _ _ hjs]
      exact hin j hjh
    · have e : j = stripe := List.mem_singleton.mp hjs
      subst e
      rw [upd_same, hout j hsm]
      exact ⟨by rw [← hout j hsm]; exact heven, rfl⟩

theorem freeHeldLocks_inv (orig lk : Nat → Nat) (held : List Nat)
    (hinv : lockInv orig lk held) :
    (∀ j, orig j % 2 = 0 → freeHeldLocks held lk j % 2 = 0) ∧
    (∀ j, orig j % 2 = 0 → orig j < 2 ^ 32 →
      freeHeldLocks held lk j = orig j ∨ freeHeldLocks held lk j = orig j + 2) := by
  obtain ⟨hnd, hout, hin⟩ := hinv
  constructor
  · intro j hj
    by_cases hm : j ∈ held
    · rw [freeHeldLocks_mem held lk j hnd hm]
      exact unlock_even _
    · rw [freeHeldLocks_not_mem held lk j hm, hout j hm]
      exact hj
  · intro j hj hlt
    by_cases hm : j ∈ held
    · rw [freeHeldLocks_mem held lk j hnd hm, (hin j hm).2]
      right
      rw [unlock_odd_lt (orig j + 1) (by omega) (by omega)]
    · rw [freeHeldLocks_not_mem held lk j hm, hout j hm]
      exact Or.inl rfl

end TM

namespace TM

theorem phase3_inl (numLocks : Nat) (orig : Nat → Nat) :
    ∀ (ws : List (Nat × Nat)) (lk : Nat → Nat) (held : List Nat)
      (lk2 : Nat → Nat) (held2 : List Nat),
      lockInv orig lk held →
      phase3 numLocks ws lk held = .inl (lk2, held2) →
      lockInv orig lk2 held2 := by
  intro ws
  induction ws with
  | nil =>
      intro lk held lk2 held2 hinv heq
      simp only [phase3, Sum.inl.injEq, Prod.mk.injEq] at heq
      rw [← heq.1, ← heq.2]
      exact hinv
  | cons p rest ih =>
      intro lk held lk2 held2 hinv heq
      obtain ⟨addr, val⟩ := p
      simp only [phase3] at heq
      split at heq
      · rename_i w hlock
        obtain ⟨heven, rfl⟩ := (lock_eq_some _ _).mp hlock
        exact ih _ _ _ _ (lockInv_step orig lk held (addr % numLocks) hinv heven) heq
      · exact absurd heq (by simp)

theorem phase3_inr (numLocks : Nat) (orig : Nat → Nat) :
    ∀ (ws : List (Nat × Nat)) (lk : Nat → Nat) (held : List Nat) (lk2 : Nat → Nat),
      lockInv orig lk held →
      phase3 numLocks ws lk held = .inr lk2 →
      (∀ j, orig j % 2 = 0 → lk2 j % 2 = 0) ∧
      (∀ j, orig j % 2 = 0 → orig j < 2 ^ 32 →
        lk2 j = orig j ∨ lk2 j = orig j + 2) := by
  intro ws
  induction ws with
  | nil =>
      intro lk held lk2 hinv heq
      exact absurd heq (by simp [phase3])
  | cons p rest ih =>
      intro lk held lk2 hinv heq
      obtain ⟨addr, val⟩ := p
      simp only [phase3] at heq
      split at heq
      · rename_i w hlock
        obtain ⟨heven, rfl⟩ := (lock_eq_some _ _).mp hlock
        exact ih _ _ _ (lockInv_step orig lk held (addr % numLocks) hinv heven) heq
      · rename_i hlock
        have heq2 : freeHeldLocks held lk = lk2 := by
          simpa using heq
        rw [← heq2]
        exact freeHeldLocks_inv orig lk held hinv

theorem tm_end_inr (numLocks : Nat) (s : MemoryRegion) (txn : Transaction)
    (lk2 : Nat → Nat)
    (h3 : phase3 numLocks txn.write_set s.locks [] = .inr lk2) :
    tm_end numLocks s txn = (false, { s with locks := lk2 }) := by
  unfold tm_end
  rw [h3]

theorem tm_end_inl (numLocks : Nat) (s : MemoryRegion) (txn : Transaction)
    (lk1 : Nat → Nat) (held : List Nat)
    (h3 : phase3 numLocks txn.write_set s.locks [] = .inl (lk1, held)) :
    tm_end numLocks s txn =
      if phase5 numLocks lk1 ((s.gvc + 1) % 2 ^ 64) txn.read_set then
        (false,
          { s with
            mem := (phase6 numLocks s.gvc txn.write_set s.mem lk1).1,
            locks := freeHeldLocks held (phase6 numLocks s.gvc txn.write_set s.mem lk1).2,
            gvc := (s.gvc + 1) % 2 ^ 64 })
      else
        (false,
          { s with
            locks := freeHeldLocks held lk1,
            gvc := (s.gvc + 1) % 2 ^ 64 }) := by
  unfold tm_end
  rw [h3]

theorem tm_end_commits_inl (numLocks : Nat) (s : MemoryRegion) (txn : Transaction)
    (lk1 : Nat → Nat) (held : List Nat)
    (h3 : phase3 numLocks txn.write_set s.locks [] = .inl (lk1, held)) :
    tm_end_commits numLocks s txn =
      phase5 numLocks lk1 ((s.gvc + 1) % 2 ^ 64) txn.read_set := by
  unfold tm_end_commits
  rw [h3]

/-- Claim C4 (amended): whenever `tm_end` aborts — a phase-3 lock
acquisition fails or phase-5 validation fails — it returns `false`,
leaves every shared data word unchanged, and releases every previously
acquired stripe lock; however the release goes through `unlock`, which
advances the released stripe's version by one instead of restoring it
(the source has no `unlock_restore`).  Concretely: every stripe that was
unlocked at entry is unlocked again after the abort, and (below the
32-bit mask threshold) its word is either untouched or exactly two
larger, i.e. the same lock with version incremented by one. -/
theorem tm_end_abort_effect (numLocks : Nat) (s : MemoryRegion) (txn : Transaction)
    (h : tm_end_commits numLocks s txn = false) :
    (tm_end numLocks s txn).1 = false ∧
    (tm_end numLocks s txn).2.mem = s.mem ∧
    (∀ j, s.locks j % 2 = 0 → (tm_end numLocks s txn).2.locks j % 2 = 0) ∧
    (∀ j, s.locks j % 2 = 0 → s.locks j < 2 ^ 32 →
      (tm_end numLocks s txn).2.locks j = s.locks j ∨
      (tm_end numLocks s txn).2.locks j = s.locks j + 2) := by
  cases h3 : phase3 numLocks txn.write_set s.locks [] with
  | inl p =>
      obtain ⟨lk1, held⟩ := p
      have hinv := phase3_inl numLocks s.locks txn.write_set s.locks [] lk1 held
        (lockInv_nil s.locks) h3
      have h5 : phase5 numLocks lk1 ((s.gvc + 1) % 2 ^ 64) txn.read_set = false := by
        rw [tm_end_commits_inl numLocks s txn lk1 held h3] at h
        exact h
      rw [tm_end_inl numLocks s txn lk1 held h3, h5]
      simp only [Bool.false_eq_true, if_false]
      have hfree := freeHeldLocks_inv s.locks lk1 held hinv
      exact ⟨trivial, trivial, hfree.1, hfree.2⟩
  | inr lk2 =>
      rw [tm_end_inr numLocks s txn lk2 h3]
      have hprops := phase3_inr numLocks s.locks txn.write_set s.locks [] lk2
        (lockInv_nil s.locks) h3
      exact ⟨rfl, rfl, hprops.1, hprops.2⟩

/-- Witness for `tm_end_abort_effect`: the two-stripe transaction whose
second lock acquisition fails on the pre-locked stripe 2 aborts, leaves
shared memory unchanged, and leaves the initially-unlocked stripe 1
unlocked again. -/
theorem tm_end_abort_effect_witness :
    tm_end_commits 8 stripe2LockedRegion twoStripeTxn = false ∧
    (tm_end 8 stripe2LockedRegion twoStripeTxn).1 = false ∧
    (tm_end 8 stripe2LockedRegion twoStripeTxn).2.mem = stripe2LockedRegion.mem ∧
    (tm_end 8 stripe2LockedRegion twoStripeTxn).2.locks 1 % 2 = 0 ∧
    ((tm_end 8 stripe2LockedRegion twoStripeTxn).2.locks 1 = stripe2LockedRegion.locks 1 ∨
      (tm_end 8 stripe2LockedRegion twoStripeTxn).2.locks 1 = stripe2LockedRegion.locks 1 + 2) := by
  have h := tm_end_abort_effect 8 stripe2LockedRegion twoStripeTxn (by decide)
  exact ⟨by decide, h.1, h.2.1, h.2.2.1 1 (by decide), h.2.2.2 1 (by decide) (by decide)⟩

end TM

namespace TM

theorem readLoopRW_zero (numLocks : Nat) (s : MemoryRegion) (src i : Nat)
    (txn : Transaction) (acc : List Nat) :
    readLoopRW numLocks s src i 0 txn acc = (true, some txn, acc) := rfl

theorem readLoopRW_succ (numLocks : Nat) (s : MemoryRegion) (src i n : Nat)
    (txn : Transaction) (acc : List Nat) :
    readLoopRW numLocks s src i (n + 1) txn acc =
      (let addr := src + 8 * i
       if validateRead s.locks numLocks addr txn.rv then
         let v :=
           match wsFind txn.write_set addr with
           | some w => w
           | none => s.mem addr
         if validateRead s.locks numLocks addr txn.rv then
           readLoopRW numLocks s src (i + 1) n
             { txn with read_set := insertRS txn.read_set addr } (acc ++ [v])
         else (false, none, acc ++ [v])
       else (false, none, acc)) := rfl

/-- Claim C5 (amended): in a read-write transaction, a read of an
address present in the transaction's own write set copies the buffered
pending value (not the shared word), but the source still validates the
address's stripe before and after the copy exactly as for an ordinary
read, and it does insert the address into the read set.  When that
validation passes, a read after a write of `v` to `a` returns `v`. -/
theorem tm_read_write_set_hit (numLocks : Nat) (s : MemoryRegion) (txn : Transaction)
    (a v : Nat) (hro : txn.is_ro = false) (hal : 0 < s.align)
    (hws : wsFind txn.write_set a = some v)
    (hval : validateRead s.locks numLocks a txn.rv = true) :
    tm_read numLocks s txn a s.align =
      (true, some { txn with read_set := insertRS txn.read_set a }, [v]) := by
  have h1 : s.align / s.align = 1 := Nat.div_self hal
  simp only [tm_read, h1, hro, Bool.false_eq_true, if_false]
  rw [show (1 : Nat) = 0 + 1 from rfl, readLoopRW_succ]
  simp only [Nat.mul_zero, Nat.add_zero, hval, if_true, hws, readLoopRW_zero,
    List.nil_append]
  rw [hro]

/-- Witness for `tm_read_write_set_hit`: on a fresh region the stripe of
address 8 holds version 0 with read version 0, so validation passes and
the read of the write-set address 8 returns the buffered 17, with 8
inserted into the read set. -/
theorem tm_read_write_set_hit_witness :
    tm_read 8 zeroRegion bufferedTxn 8 zeroRegion.align =
      (true, some { bufferedTxn with read_set := insertRS bufferedTxn.read_set 8 }, [17]) := by
  exact tm_read_write_set_hit 8 zeroRegion bufferedTxn 8 17 rfl (by decide)
    (by decide) (by decide)

end TM

namespace TM

theorem wsFind_insertOrAssign_self (ws : List (Nat × Nat)) (a v : Nat) :
    wsFind (insertOrAssign ws a v) a = some v := by
  induction ws with
  | nil => simp [insertOrAssign, wsFind]
  | cons p rest ih =>
      obtain ⟨b, w⟩ := p
      by_cases h : b = a
      · subst h
        simp [insertOrAssign, wsFind]
      · simp [insertOrAssign, h, wsFind, ih]

theorem mem_keys_insertOrAssign (ws : List (Nat × Nat)) (a v c : Nat) :
    c ∈ (insertOrAssign ws a v).map Prod.fst ↔ c ∈ ws.map Prod.fst ∨ c = a := by
  induction ws with
  | nil => simp [insertOrAssign]
  | cons p rest ih =>
      obtain ⟨b, w⟩ := p
      by_cases h : b = a
      · subst h
        simp [insertOrAssign]
        tauto
      · simp [insertOrAssign, h, ih]
        tauto

theorem keys_nodup_insertOrAssign (ws : List (Nat × Nat)) (a v : Nat)
    (h : (ws.map Prod.fst).Nodup) :
    ((insertOrAssign ws a v).map Prod.fst).Nodup := by
  induction ws with
  | nil => simp [insertOrAssign]
  | cons p rest ih =>
      obtain ⟨b, w⟩ := p
      simp only [List.map_cons, List.nodup_cons] at h
      by_cases hba : b = a
      · subst hba
        simpa [insertOrAssign, List.nodup_cons] using h
      · simp only [insertOrAssign, if_neg hba, List.map_cons, List.nodup_cons]
        refine ⟨?_, ih h.2⟩
        intro hmem
        rcases (mem_keys_insertOrAssign rest a v b).mp hmem with hm | e
        · exact h.1 hm
        · exact hba e

theorem phase6_mem_of_not_mem (numLocks wv : Nat) :
    ∀ (ws : List (Nat × Nat)) (mem lk : Nat → Nat) (a : Nat),
      a ∉ ws.map Prod.fst →
      (phase6 numLocks wv ws mem lk).1 a = mem a := by
  intro ws
  induction ws with
  | nil => intro mem lk a _; rfl
  | cons p rest ih =>
      intro mem lk a ha
      obtain ⟨b, w⟩ := p
      simp only [List.map_cons, List.mem_cons] at ha
      push_neg at ha
      simp only [phase6]
      rw [ih _ _ a ha.2, upd_ne _ _ _ _ ha.1]

theorem phase6_mem_of_find (numLocks wv : Nat) :
    ∀ (ws : List (Nat × Nat)) (mem lk : Nat → Nat) (a v : Nat),
      (ws.map Prod.fst).Nodup → wsFind ws a = some v →
      (phase6 numLocks wv ws mem lk).1 a = v := by
  intro ws
  induction ws with
  | nil => intro mem lk a v _ h; simp [wsFind] at h
  | cons p rest ih =>
      intro mem lk a v hnd hf
      obtain ⟨b, w⟩ := p
      simp only [List.map_cons, List.nodup_cons] at hnd
      by_cases hba : b = a
      · subst hba
        simp only [wsFind, eq_self_iff_true, if_true, Option.some.injEq] at hf
        simp only [phase6]
        rw [phase6_mem_of_not_mem numLocks wv rest _ _ b hnd.1, upd_same]
        exact hf
      · simp only [wsFind, if_neg hba] at hf
        simp only [phase6]
        exact ih _ _ a v hnd.2 hf

theorem tm_end_commits_inr (numLocks : Nat) (s : MemoryRegion) (txn : Transaction)
    (lk2 : Nat → Nat)
    (h3 : phase3 numLocks txn.write_set s.locks [] = .inr lk2) :
    tm_end_commits numLocks s txn = false := by
  unfold tm_end_commits
  rw [h3]

/-- On the commit path, the final shared value of an address bound in
the write set is its buffered pending value: phase 6 stores it and the
lock-releasing fold touches only the stripe table. -/
theorem tm_end_commit_mem (numLocks : Nat) (s : MemoryRegion) (txn : Transaction)
    (hc : tm_end_commits numLocks s txn = true)
    (hnd : (txn.write_set.map Prod.fst).Nodup)
    (a v : Nat) (hf : wsFind txn.write_set a = some v) :
    (tm_end numLocks s txn).2.mem a = v := by
  cases h3 : phase3 numLocks txn.write_set s.locks [] with
  | inl p =>
      obtain ⟨lk1, held⟩ := p
      have h5 : phase5 numLocks lk1 ((s.gvc + 1) % 2 ^ 64) txn.read_set = true := by
        rw [tm_end_commits_inl numLocks s txn lk1 held h3] at hc
        exact hc
      rw [tm_end_inl numLocks s txn lk1 held h3, h5]
      simp only [if_true]
      exact phase6_mem_of_find numLocks s.gvc txn.write_set s.mem lk1 a v hnd hf
  | inr lk2 =>
      rw [tm_end_commits_inr numLocks s txn lk2 h3] at hc
      exact absurd hc (by simp)

theorem writeLoop_zero (srcMem : Nat → Nat) (src dst i : Nat) (ws : List (Nat × Nat)) :
    writeLoop srcMem src dst i 0 ws = ws := rfl

theorem writeLoop_succ (srcMem : Nat → Nat) (src dst i n : Nat) (ws : List (Nat × Nat)) :
    writeLoop srcMem src dst i (n + 1) ws =
      writeLoop srcMem src dst (i + 1) n
        (insertOrAssign ws (dst + 8 * i) (srcMem (src + 8 * i))) := rfl

theorem tm_write_one_word (srcMem : Nat → Nat) (s : MemoryRegion) (txn : Transaction)
    (src dst : Nat) (hal : 0 < s.align) :
    (tm_write srcMem s txn src s.align dst).2.write_set =
      insertOrAssign txn.write_set dst (srcMem src) := by
  have h1 : s.align / s.align = 1 := Nat.div_self hal
  simp only [tm_write, h1]
  rw [show (1 : Nat) = 0 + 1 from rfl, writeLoop_succ]
  simp only [Nat.mul_zero, Nat.add_zero, writeLoop_zero]

/-- Claim C9: `tm_write` only buffers: it returns `true` for every
input and records each affected word in the write set by
insert-or-overwrite (it produces no shared-memory effect — its embedding
has no shared-state output because tm.cpp:270-290 never stores to the
region).  When the same address is written twice in one transaction and
the transaction then commits, the value stored to shared memory is the
last one written. -/
theorem tm_write_buffering (m1 m2 : Nat → Nat) (s : MemoryRegion) (txn : Transaction)
    (src1 src2 dst size numLocks : Nat) (hal : 0 < s.align)
    (hnd : (txn.write_set.map Prod.fst).Nodup) :
    (tm_write m1 s txn src1 size dst).1 = true ∧
    (tm_write m1 s txn src1 s.align dst).2.write_set =
      insertOrAssign txn.write_set dst (m1 src1) ∧
    (tm_end_commits numLocks s
        (tm_write m2 s (tm_write m1 s txn src1 s.align dst).2 src2 s.align dst).2 = true →
      (tm_end numLocks s
          (tm_write m2 s (tm_write m1 s txn src1 s.align dst).2 src2 s.align dst).2).2.mem dst =
        m2 src2) := by
  have hw1 := tm_write_one_word m1 s txn src1 dst hal
  have hw2 := tm_write_one_word m2 s (tm_write m1 s txn src1 s.align dst).2 src2 dst hal
  refine ⟨rfl, hw1, ?_⟩
  intro hcom
  have hnd2 :
      (((tm_write m2 s (tm_write m1 s txn src1 s.align dst).2 src2 s.align dst).2).write_set.map
        Prod.fst).Nodup := by
    rw [hw2, hw1]
    exact keys_nodup_insertOrAssign _ dst (m2 src2)
      (keys_nodup_insertOrAssign _ dst (m1 src1) hnd)
  have hfind :
      wsFind ((tm_write m2 s (tm_write m1 s txn src1 s.align dst).2 src2 s.align dst).2).write_set
        dst = some (m2 src2) := by
    rw [hw2]
    exact wsFind_insertOrAssign_self _ dst (m2 src2)
  exact tm_end_commit_mem numLocks s _ hcom hnd2 dst (m2 src2) hfind

/-- Witness for `tm_write_buffering`: writing 3 and then 7 to address 16
of a fresh region and committing stores 7. -/
theorem tm_write_buffering_witness :
    (tm_write (fun _ => 3) zeroRegion txnEmpty 0 8 16).1 = true ∧
    (tm_write (fun _ => 3) zeroRegion txnEmpty 0 zeroRegion.align 16).2.write_set =
      insertOrAssign txnEmpty.write_set 16 3 ∧
    (tm_end 8 zeroRegion
        (tm_write (fun _ => 7) zeroRegion
          (tm_write (fun _ => 3) zeroRegion txnEmpty 0 zeroRegion.align 16).2 0
          zeroRegion.align 16).2).2.mem 16 = 7 := by
  have h := tm_write_buffering (fun _ => 3) (fun _ => 7) zeroRegion txnEmpty 0 0 16 8 8
    (by decide) (by decide)
  exact ⟨h.1, h.2.1, h.2.2 (by decide)⟩

end TM
